import Mathlib

/-!
Verification of the folder/flat-output reconciliation and rebuild engine of
`AllInOne_OCR_Pipeline_GUI_v4.py` (shared helpers, `build_flat_index`,
`recreate_from_original_tree`, `process_from_excel_mapping`,
`pre_ocr_append_token`, `write_report_one_workbook`), as a shallow embedding:
pure Python functions become Lean functions, the stateful reconciliation loop
becomes an explicit fold over a run state, and filesystem interaction is
modelled by an explicit environment (directory listings, existence predicates)
plus a trace of effects.
-/

namespace OCRPipeline

/-- Association-list lookup, modelling Python `dict` access (`d.get(k)` /
`d[k]`); Python dicts preserve insertion order, which a list of pairs keeps. -/
def alookup : List (String × α) → String → Option α
  | [], _ => none
  | (k, v) :: rest, key => if k = key then some v else alookup rest key

/-- Python `key in d` on a dict modelled as an association list. -/
def akeyMem (d : List (String × α)) (key : String) : Bool :=
  (alookup d key).isSome

/-- Model of `os.path.join(folder, name)` on the Windows paths this tool targets. -/
def joinPath (folder name : String) : String :=
  folder ++ "\\" ++ name

/-- Index of the last character satisfying `p`, if any (helper for
`os.path.splitext` / `os.path.basename`). -/
def lastIdx : List Char → (Char → Bool) → Option Nat
  | [], _ => none
  | c :: cs, p =>
    match lastIdx cs p with
    | some i => some (i + 1)
    | none => if p c then some 0 else none

/-- Model of `os.path.splitext` (ntpath): split at the last dot of the final path
component, unless every character between the start of that component and the
last dot is itself a dot (so names made only of leading dots keep no
extension). -/
def splitext (s : String) : String × String :=
  let cs := s.data
  match lastIdx cs (fun c => c = '.') with
  | none => (s, "")
  | some d =>
    let start :=
      match lastIdx cs (fun c => c = '\\' || c = '/') with
      | none => 0
      | some i => i + 1
    if start ≤ d ∧ ((cs.drop start).take (d - start)).any (fun c => c ≠ '.') then
      (⟨cs.take d⟩, ⟨cs.drop d⟩)
    else
      (s, "")

/-- Model of `os.path.basename` (ntpath): the part after the last separator. -/
def basename (s : String) : String :=
  match lastIdx s.data (fun c => c = '\\' || c = '/') with
  | none => s
  | some i => ⟨s.data.drop (i + 1)⟩

/-- ASCII `c.lower()`. -/
def lowerChar (c : Char) : Char :=
  if 'A' ≤ c ∧ c ≤ 'Z' then Char.ofNat (c.toNat + 32) else c

/-- Model of `str.lower()` (ASCII range, which is what these filenames use). -/
def pyLower (s : String) : String := ⟨s.data.map lowerChar⟩

/-- The whitespace characters `str.strip()` removes (ASCII part). -/
def isPySpace (c : Char) : Bool :=
  c = ' ' || c = '\t' || c = '\n' || c = '\r' || c = '\x0b' || c = '\x0c'

/-- Model of `str.strip()` with no argument: trim surrounding whitespace. -/
def pyStrip (s : String) : String :=
  ⟨((s.data.dropWhile isPySpace).reverse.dropWhile isPySpace).reverse⟩

/-- Model of `s.endswith(e)` for a single suffix. -/
def strEndsWith (s e : String) : Bool :=
  e.data.isSuffixOf s.data

/-- Model of `s.startswith(p)`. -/
def strStartsWith (s p : String) : Bool :=
  p.data.isPrefixOf s.data

/-- Model of `name.lower().endswith(tuple_of_exts)`: true when some listed extension is
a suffix. -/
def endsWithAny (s : String) (exts : List String) : Bool :=
  exts.any (fun e => strEndsWith s e)

/-- Normalisation of the configured output extension, as done at the top of
both rebuild entry points: ensure a leading dot, then lowercase. -/
def normalizeOutputExt (output_ext : String) : String :=
  let e := if strStartsWith output_ext "." then output_ext else "." ++ output_ext
  pyLower e

/-- Model of `normalize_path`: trim, then replace every `/` with `\`. -/
def normalize_path (p : String) : String :=
  ⟨(pyStrip p).data.map (fun c => if c = '/' then '\\' else c)⟩

/-- Model of `strip_drive_and_leading_slashes`: drop a two-character drive prefix like
`C:` and then every leading backslash. -/
def strip_drive_and_leading_slashes (p : String) : String :=
  let q := normalize_path p
  let r := if q.data.length ≥ 2 ∧ q.data.get? 1 = some ':' then ⟨q.data.drop 2⟩ else q
  ⟨r.data.dropWhile (fun c => c = '\\')⟩

/-- Model of `os.path.dirname` (ntpath, simplified to the separator-based case used on
the already-normalised directory column values): everything before the last
backslash, with trailing backslashes of that head removed. -/
def ntDirname (s : String) : String :=
  match lastIdx s.data (fun c => c = '\\') with
  | none => ""
  | some i => ⟨(s.data.take i).reverse.dropWhile (fun c => c = '\\') |>.reverse⟩

/-- Concatenation of a list of lists (helper for the nested report/orphan
loops). -/
def concatAll : List (List α) → List α
  | [] => []
  | l :: ls => l ++ concatAll ls

/-- Pair each element with its position, mirroring `df.iterrows()` over the
default integer index. -/
def withIdx (start : Nat) : List α → List (Nat × α)
  | [] => []
  | a :: as => (start, a) :: withIdx (start + 1) as

/-! ## `build_flat_index` -/

/-- The flat-folder index returned by `build_flat_index`. -/
structure FlatIndex where
  unique_lookup : List (String × String)
  duplicates : List (String × List String)
  all_files : List (String × List String)
deriving DecidableEq

/-- Model of `all_files.setdefault(key, []).append(full)`: append `p` to the group of
`key`, creating the group at the end on first sight (Python dicts keep
insertion order). -/
def addToGroup : List (String × List String) → String → String → List (String × List String)
  | [], key, p => [(key, [p])]
  | (k, ps) :: rest, key, p =>
    if k = key then (k, ps ++ [p]) :: rest else (k, ps) :: addToGroup rest key p

/-- The extension filter applied while indexing: with no filter everything is
kept; with a filter, `name.lower().endswith(allowed_exts)` must hold (a Python
`endswith` against an empty tuple is `False`, as is `endsWithAny _ []`). -/
def keepName (allowed_exts : Option (List String)) (name : String) : Bool :=
  match allowed_exts with
  | none => true
  | some exts => endsWithAny (pyLower name) exts

/-- One iteration of the indexing loop of `build_flat_index`: files passing
the extension filter are grouped under their lowercased name. -/
def groupStep (flat_folder : String) (allowed_exts : Option (List String))
    (g : List (String × List String)) (name : String) : List (String × List String) :=
  if keepName allowed_exts name then
    addToGroup g (pyLower name) (joinPath flat_folder name)
  else g

/-- The grouping loop of `build_flat_index` over the directory listing
(`listing` holds the plain file names `os.listdir` yields; directories are
assumed already excluded by the `os.path.isfile` guard). -/
def groupFlat (flat_folder : String) (allowed_exts : Option (List String))
    (listing : List String) : List (String × List String) :=
  listing.foldl (groupStep flat_folder allowed_exts) []

/-- The second loop of `build_flat_index`: singleton groups go to
`unique_lookup` (keeping `paths[0]`), all other groups to `duplicates`. -/
def splitIndex : List (String × List String) → List (String × String) × List (String × List String)
  | [] => ([], [])
  | (k, ps) :: rest =>
    let ud := splitIndex rest
    match ps with
    | [p] => ((k, p) :: ud.1, ud.2)
    | _ => (ud.1, (k, ps) :: ud.2)

/-- Model of `build_flat_index(flat_folder, allowed_exts)` over an explicit listing. -/
def build_flat_index (flat_folder : String) (allowed_exts : Option (List String))
    (listing : List String) : FlatIndex :=
  let all := groupFlat flat_folder allowed_exts listing
  let ud := splitIndex all
  ⟨ud.1, ud.2, all⟩

/-! ## Run state of the two reconciliation loops -/

/-- Filesystem effects the engine performs, in order. -/
inductive Effect
  | mkDir (d : String)
  | movedFile (src dest : String)
  | copiedFile (src dest : String)
deriving DecidableEq

/-- One entry of `missing_rows` (also used for duplicate skips, as in the
source). -/
structure MissingRow where
  row_index : Option Nat
  source : String
  target_folder_rel : String
  expected_output_name : String
  reason : String
deriving DecidableEq

/-- The mutable state threaded through both reconciliation loops. `live` is
the set of files currently present in the flat folder (a move removes its
source from it), `placements` the successful move/copy operations, `counted`
is `total_inputs` in tree mode and `rows_considered` in mapping mode. -/
structure RunState where
  live : List String
  used_unique : List String
  counted : Nat
  moved_or_copied : Nat
  missing_not_found : Nat
  skipped_duplicates : Nat
  errors : Nat
  missing_rows : List MissingRow
  placements : List (String × String)
  effects : List Effect
deriving DecidableEq

/-- The state at loop entry: the flat folder holds `live0`, every counter is
zero and every collection empty. -/
def initState (live0 : List String) : RunState :=
  ⟨live0, [], 0, 0, 0, 0, 0, [], [], []⟩

/-- The placement block shared by both loops: `ensure_dir(dest_dir)` then
`shutil.move`/`shutil.copy2` inside `try`. A move or copy succeeds exactly
when the source file still exists; on success the key is marked consumed,
on failure only the error counter grows. -/
def placeFile (move_files : Bool) (expected_key src dest_dir dest_path : String)
    (st : RunState) : RunState :=
  let st := { st with effects := st.effects ++ [Effect.mkDir dest_dir] }
  if src ∈ st.live then
    { st with
      live := if move_files then st.live.erase src else st.live,
      moved_or_copied := st.moved_or_copied + 1,
      used_unique :=
        if expected_key ∈ st.used_unique then st.used_unique
        else expected_key :: st.used_unique,
      placements := st.placements ++ [(src, dest_path)],
      effects := st.effects ++
        [if move_files then Effect.movedFile src dest_path
         else Effect.copiedFile src dest_path] }
  else
    { st with errors := st.errors + 1 }

/-- The per-item classification shared by both loops, applied after the
expected output name has been resolved: duplicate check, then unique lookup
(`if not src` in the source tests string falsiness; the stored full paths are
never empty, so `Option` absence is equivalent), then placement. -/
def processItem (idx : FlatIndex) (move_files : Bool) (row_index : Option Nat)
    (source_desc target_folder_rel expected_name dest_dir dest_path : String)
    (st : RunState) : RunState :=
  let expected_key := pyLower expected_name
  let st := { st with counted := st.counted + 1 }
  if akeyMem idx.duplicates expected_key then
    { st with
      skipped_duplicates := st.skipped_duplicates + 1,
      missing_rows := st.missing_rows ++
        [⟨row_index, source_desc, target_folder_rel, expected_name,
          "Duplicate filename in flat folder (skipped)"⟩] }
  else
    match alookup idx.unique_lookup expected_key with
    | none =>
      { st with
        missing_not_found := st.missing_not_found + 1,
        missing_rows := st.missing_rows ++
          [⟨row_index, source_desc, target_folder_rel, expected_name,
            "Not found in flat folder"⟩] }
    | some src => placeFile move_files expected_key src dest_dir dest_path st

/-! ## Mode A: `recreate_from_original_tree` -/

/-- One file met by the `os.walk` over the original tree: its containing
directory (the walk root), that directory relative to `original_root`
(`os.path.relpath`, with `"."` already mapped to `""`), and the file name. -/
structure TreeItem where
  dir_full : String
  dir_rel : String
  name : String
deriving DecidableEq

/-- Model of `should_include_file` from the tree-mode loop: output files are never
re-processed; otherwise scan everything or filter by `include_exts`. -/
def should_include_file (output_ext : String) (scan_all : Bool)
    (include_exts : List String) (pathname : String) : Bool :=
  let n := pyLower pathname
  if strEndsWith n output_ext then false
  else if scan_all then true
  else endsWithAny n include_exts

/-- One iteration of the tree-mode loop body (`output_ext` and
`output_suffix` arrive already normalised). -/
def treeStep (idx : FlatIndex) (move_files : Bool) (output_ext output_suffix : String)
    (scan_all : Bool) (include_exts : List String) (destination_root : String)
    (st : RunState) (item : TreeItem) : RunState :=
  if should_include_file output_ext scan_all include_exts item.name then
    let base := (splitext item.name).1
    let expected_name := base ++ output_suffix ++ output_ext
    let source_full := joinPath item.dir_full item.name
    let target_folder_rel := item.dir_rel
    let dest_dir := joinPath destination_root target_folder_rel
    processItem idx move_files none source_full target_folder_rel expected_name
      dest_dir (joinPath dest_dir expected_name) st
  else st

/-- Orphan computation, run once after the loop: every file of `all_files`
whose key is duplicated or was never consumed. -/
structure OrphanRow where
  flat_filename : String
  flat_full_path : String
deriving DecidableEq

def orphansOf (idx : FlatIndex) (used : List String) : List OrphanRow :=
  concatAll (idx.all_files.map (fun kps =>
    kps.2.filterMap (fun p =>
      if akeyMem idx.duplicates kps.1 ∨ kps.1 ∉ used then
        some ⟨basename p, p⟩
      else none)))

/-- The duplicate report rows, computed right after indexing. -/
structure DuplicateRow where
  flat_filename : String
  duplicate_count : Nat
  flat_full_path : String
deriving DecidableEq

def duplicateRowsOf (idx : FlatIndex) : List DuplicateRow :=
  concatAll (idx.duplicates.map (fun kps =>
    kps.2.map (fun p => ⟨basename p, kps.2.length, p⟩)))

/-- What a completed run returns: final loop state plus the computed report
row sets. -/
structure RunResult where
  state : RunState
  orphan_rows : List OrphanRow
  duplicate_rows : List DuplicateRow
deriving DecidableEq

/-- Existence checks the engine performs against the surrounding
filesystem. -/
structure Env where
  isDir : String → Bool
  isFile : String → Bool

structure TreeConfig where
  original_root : String
  flat_output_folder : String
  destination_root : String
  move_files : Bool
  scan_all : Bool
  include_exts : List String
  output_ext : String
  output_suffix : String
deriving DecidableEq

/-- The tree-mode reconciliation loop, from the initial flat-folder
contents. -/
def recreate_loop (cfg : TreeConfig) (idx : FlatIndex) (live0 : List String)
    (items : List TreeItem) : RunState :=
  items.foldl
    (treeStep idx cfg.move_files (normalizeOutputExt cfg.output_ext)
      (pyStrip cfg.output_suffix) cfg.scan_all cfg.include_exts cfg.destination_root)
    (initState live0)

/-- Model of `recreate_from_original_tree`: precondition checks, destination-root
creation, indexing, the walk loop, then orphan computation. `flat_listing` is
the flat folder contents, `items` the files the walk yields in order. -/
def recreate_from_original_tree (cfg : TreeConfig) (env : Env)
    (flat_listing : List String) (items : List TreeItem) :
    List Effect × Except String RunResult :=
  if !env.isDir cfg.original_root then
    ([], .error "Original root folder does not exist.")
  else if !env.isDir cfg.flat_output_folder then
    ([], .error "Flat output folder does not exist.")
  else
    let output_ext := normalizeOutputExt cfg.output_ext
    let idx := build_flat_index cfg.flat_output_folder (some [output_ext]) flat_listing
    let live0 := flat_listing.map (joinPath cfg.flat_output_folder)
    let st := recreate_loop cfg idx live0 items
    (Effect.mkDir cfg.destination_root :: st.effects,
     .ok ⟨st, orphansOf idx st.used_unique, duplicateRowsOf idx⟩)

/-! ## Mode B: `process_from_excel_mapping` -/

/-- One spreadsheet row projected to the two configured columns; `none`
models a missing/NaN cell. -/
structure MapRow where
  dir_val : Option String
  name_val : Option String
deriving DecidableEq

/-- Model of `str(cell)` for a cell already known non-NaN; `str(nan)` would be
`"nan"`. -/
def cellStr : Option String → String
  | some s => s
  | none => "nan"

/-- Model of `pd.isna(v) or str(v).strip() == ""`. -/
def isBlankCell : Option String → Bool
  | none => true
  | some s => pyStrip s == ""

def lstripBackslash (s : String) : String :=
  ⟨s.data.dropWhile (fun c => c = '\\')⟩

def rstripBackslash (s : String) : String :=
  ⟨(s.data.reverse.dropWhile (fun c => c = '\\')).reverse⟩

structure MappingConfig where
  spreadsheet_path : String
  sheet_name : String
  flat_folder : String
  destination_root : String
  directory_col : String
  name_col : String
  output_ext : String
  output_suffix : String
  directory_is_full_path : Bool
  move_files : Bool
deriving DecidableEq

/-- The expected output name a mapping row resolves to:
`base_name_raw = str(name_val).strip()`, `base_name = splitext(base_name_raw)[0].strip()`,
then `base_name + output_suffix + output_ext` (the matching key is this,
lowercased). -/
def mapping_expected_name (name_val output_suffix output_ext : String) : String :=
  let base_name_raw := pyStrip name_val
  let base_name := pyStrip (splitext base_name_raw).1
  base_name ++ output_suffix ++ output_ext

/-- One iteration of the mapping-mode loop body: blank rows are a no-op;
otherwise strip any extension from the name value, build the expected output
name, derive the target directory from the directory column and classify. -/
def mappingStep (idx : FlatIndex) (move_files : Bool) (output_ext output_suffix : String)
    (directory_is_full_path : Bool) (destination_root : String)
    (st : RunState) (ir : Nat × MapRow) : RunState :=
  if isBlankCell ir.2.dir_val || isBlankCell ir.2.name_val then st
  else
    let directory_value := normalize_path (cellStr ir.2.dir_val)
    let expected_name :=
      mapping_expected_name (cellStr ir.2.name_val) output_suffix output_ext
    let target_folder := ntDirname directory_value
    let target_folder_rel :=
      if directory_is_full_path then strip_drive_and_leading_slashes target_folder
      else rstripBackslash (lstripBackslash target_folder)
    let dest_dir := joinPath destination_root target_folder_rel
    processItem idx move_files (some ir.1) directory_value target_folder_rel
      expected_name dest_dir (joinPath dest_dir expected_name) st

/-- The mapping-mode reconciliation loop over the indexed rows. -/
def mapping_loop (cfg : MappingConfig) (idx : FlatIndex) (live0 : List String)
    (rows : List MapRow) : RunState :=
  (withIdx 0 rows).foldl
    (mappingStep idx cfg.move_files (normalizeOutputExt cfg.output_ext)
      (pyStrip cfg.output_suffix) cfg.directory_is_full_path cfg.destination_root)
    (initState live0)

/-- Model of `process_from_excel_mapping`: precondition checks, destination-root
creation (before the spreadsheet is read), spreadsheet read and column
checks, indexing, the row loop, then orphan computation. `sheet` is the
loaded worksheet (`none` models an unreadable spreadsheet): its column
headers and its rows projected to the two configured columns. -/
def process_from_excel_mapping (cfg : MappingConfig) (env : Env)
    (sheet : Option (List String × List MapRow)) (flat_listing : List String) :
    List Effect × Except String RunResult :=
  if !env.isFile cfg.spreadsheet_path then
    ([], .error "Spreadsheet file not found.")
  else if !env.isDir cfg.flat_folder then
    ([], .error "Flat folder not found.")
  else
    let eff0 := [Effect.mkDir cfg.destination_root]
    match sheet with
    | none => (eff0, .error "Could not read spreadsheet.")
    | some (cols, rows) =>
      if cfg.directory_col ∉ cols then
        (eff0, .error ("Directory column " ++ cfg.directory_col ++
          " not found in sheet " ++ cfg.sheet_name ++ "."))
      else if cfg.name_col ∉ cols then
        (eff0, .error ("Name column " ++ cfg.name_col ++
          " not found in sheet " ++ cfg.sheet_name ++ "."))
      else
        let output_ext := normalizeOutputExt cfg.output_ext
        let idx := build_flat_index cfg.flat_folder (some [output_ext]) flat_listing
        let live0 := flat_listing.map (joinPath cfg.flat_folder)
        let st := mapping_loop cfg idx live0 rows
        (eff0 ++ st.effects,
         .ok ⟨st, orphansOf idx st.used_unique, duplicateRowsOf idx⟩)

/-! ## Pre-OCR token step: collision avoidance (`pre_ocr_append_token`) -/

/-- Model of `build_new_name(filename, token, separator)`. -/
def build_new_name (filename token separator : String) : String :=
  let be := splitext filename
  be.1 ++ separator ++ token ++ be.2

/-- The probed destination names: `base_n + ext` for `n = 1, 2, ...`. -/
def candidate (base ext : String) (n : Nat) : String :=
  base ++ "_" ++ Nat.repr n ++ ext

/-- The `while os.path.exists(...)` probe of the collision block, made total
with explicit fuel (the loop terminates on a real filesystem because only
finitely many files exist): returns the first `n ≥ start` whose candidate is
free, or `none` when the fuel runs out first. `ex` is `os.path.exists`. -/
def probeFrom (ex : String → Bool) (base ext : String) : Nat → Nat → Option Nat
  | _, 0 => none
  | start, fuel + 1 =>
    if ex (candidate base ext start) then probeFrom ex base ext (start + 1) fuel
    else some start

/-- The collision block of `pre_ocr_append_token`: keep `dest_full` when it
is free, otherwise split off the extension and probe `_1`, `_2`, ... -/
def resolveCollision (ex : String → Bool) (fuel : Nat) (dest_full : String) :
    Option String :=
  if ex dest_full then
    let be := splitext dest_full
    (probeFrom ex be.1 be.2 1 fuel).map (candidate be.1 be.2)
  else some dest_full

/-- The move/copy of one pre-OCR item, performed to the collision-resolved
destination (`os.rename` in rename mode, `shutil.copy2` in copy mode). -/
def pre_ocr_materialize (ex : String → Bool) (fuel : Nat) (mode_rename : Bool)
    (src_full dest_full : String) : Option Effect :=
  (resolveCollision ex fuel dest_full).map (fun d =>
    if mode_rename then Effect.movedFile src_full d else Effect.copiedFile src_full d)

/-! ## `write_report_one_workbook` -/

/-- What the model keeps of a written sheet: its column headers and row
count. -/
structure DataFrameModel where
  header : List String
  height : Nat
deriving DecidableEq

/-- Column headers of the dict rows appended by the loops (`pd.DataFrame` on
a list of dicts takes the keys, in insertion order). -/
def missingRowKeys : List String :=
  ["row_index", "source", "target_folder_rel", "expected_output_name", "reason"]

def duplicateRowKeys : List String :=
  ["flat_filename", "duplicate_count", "flat_full_path"]

def orphanRowKeys : List String :=
  ["flat_filename", "flat_full_path"]

/-- Model of `pd.DataFrame(missing_rows) if missing_rows else pd.DataFrame(columns=[...])`
with the explicit fallback column list of the source. -/
def dfOfMissing (rows : List MissingRow) : DataFrameModel :=
  if rows.isEmpty then
    ⟨["row_index", "source", "target_folder_rel", "expected_output_name", "reason"], 0⟩
  else ⟨missingRowKeys, rows.length⟩

def dfOfDuplicates (rows : List DuplicateRow) : DataFrameModel :=
  if rows.isEmpty then ⟨["flat_filename", "duplicate_count", "flat_full_path"], 0⟩
  else ⟨duplicateRowKeys, rows.length⟩

def dfOfOrphans (rows : List OrphanRow) : DataFrameModel :=
  if rows.isEmpty then ⟨["flat_filename", "flat_full_path"], 0⟩
  else ⟨orphanRowKeys, rows.length⟩

/-- Model of `write_report_one_workbook`: a falsy (empty) report path writes nothing;
otherwise one workbook with the four sheets, in this order. `summary_row` is
the summary dict as a key-value list. -/
def write_report_one_workbook (report_path : String)
    (summary_row : List (String × String)) (missing_rows : List MissingRow)
    (duplicate_rows : List DuplicateRow) (orphan_rows : List OrphanRow) :
    Option (List (String × DataFrameModel)) :=
  if report_path = "" then none
  else
    some [("Summary", ⟨summary_row.map Prod.fst, 1⟩),
          ("Missing", dfOfMissing missing_rows),
          ("Duplicates", dfOfDuplicates duplicate_rows),
          ("Orphans", dfOfOrphans orphan_rows)]

/-! ## Derived views used by the claim statements -/

/-- All full paths recorded under duplicate keys. -/
def dupPathsOf (idx : FlatIndex) : List String :=
  concatAll (idx.duplicates.map (·.2))

/-- The flat files the loop actually moved or copied. -/
def placedSources (st : RunState) : List String :=
  st.placements.map Prod.fst

/-- The full paths of the computed orphan rows. -/
def orphanPaths (idx : FlatIndex) (used : List String) : List String :=
  (orphansOf idx used).map (·.flat_full_path)

/-! ## Basic lemmas about the helpers -/

theorem mem_concatAll {a : α} : ∀ {ls : List (List α)},
    a ∈ concatAll ls ↔ ∃ l, l ∈ ls ∧ a ∈ l := by
  intro ls
  induction ls with
  | nil => simp [concatAll]
  | cons l ls ih =>
    simp only [concatAll, List.mem_append, ih, List.mem_cons]
    constructor
    · rintro (h | ⟨l', hl', ha⟩)
      · exact ⟨l, Or.inl rfl, h⟩
      · exact ⟨l', Or.inr hl', ha⟩
    · rintro ⟨l', (rfl | hl'), ha⟩
      · exact Or.inl ha
      · exact Or.inr ⟨l', hl', ha⟩

theorem alookup_eq_none_iff {g : List (String × α)} {k : String} :
    alookup g k = none ↔ k ∉ g.map Prod.fst := by
  induction g with
  | nil => simp [alookup]
  | cons kv rest ih =>
    obtain ⟨k0, v⟩ := kv
    by_cases h : k0 = k
    · subst h
      simp [alookup]
    · simp [alookup, h, Ne.symm h, ih]

theorem mem_of_alookup_eq_some {g : List (String × α)} {k : String} {v : α}
    (h : alookup g k = some v) : (k, v) ∈ g := by
  induction g with
  | nil => simp [alookup] at h
  | cons kv rest ih =>
    obtain ⟨k0, v0⟩ := kv
    by_cases h0 : k0 = k
    · subst h0
      simp [alookup] at h
      simp [h]
    · simp [alookup, h0] at h
      exact List.mem_cons_of_mem _ (ih h)

theorem alookup_of_mem_of_nodupKeys {g : List (String × α)}
    (hg : (g.map Prod.fst).Nodup) {k : String} {v : α} (h : (k, v) ∈ g) :
    alookup g k = some v := by
  induction g with
  | nil => simp at h
  | cons kv rest ih =>
    obtain ⟨k0, v0⟩ := kv
    simp only [List.map_cons, List.nodup_cons] at hg
    rcases List.mem_cons.mp h with h1 | h1
    · obtain ⟨rfl, rfl⟩ := Prod.mk.injEq .. ▸ h1
      simp [alookup]
    · have hk : k0 ≠ k := by
        rintro rfl
        exact hg.1 (List.mem_map_of_mem Prod.fst h1)
      simp [alookup, hk]
      exact ih hg.2 h1

theorem alookup_addToGroup (g : List (String × List String)) (key p k : String) :
    alookup (addToGroup g key p) k =
      if k = key then some (((alookup g key).getD []) ++ [p]) else alookup g k := by
  induction g with
  | nil =>
    by_cases h : k = key
    · subst h
      simp [addToGroup, alookup]
    · simp [addToGroup, alookup, h, Ne.symm h]
  | cons kv rest ih =>
    obtain ⟨k0, ps⟩ := kv
    by_cases h0 : k0 = key
    · subst h0
      by_cases h : k = k0
      · subst h
        simp [addToGroup, alookup]
      · simp [addToGroup, alookup, h, Ne.symm h]
    · by_cases h1 : k0 = k
      · subst h1
        simp [addToGroup, alookup, h0, Ne.symm h0, fun hh : k0 = key => h0 hh]
      · simp [addToGroup, alookup, h0, h1, ih]

theorem keys_addToGroup (g : List (String × List String)) (key p) :
    (addToGroup g key p).map Prod.fst =
      if akeyMem g key then g.map Prod.fst else g.map Prod.fst ++ [key] := by
  induction g with
  | nil => simp [addToGroup, akeyMem, alookup]
  | cons kv rest ih =>
    obtain ⟨k0, ps⟩ := kv
    by_cases h0 : k0 = key
    · subst h0
      simp [addToGroup, akeyMem, alookup]
    · simp [addToGroup, h0, akeyMem, alookup, ih, akeyMem]
      split <;> simp

theorem keysNodup_addToGroup {g : List (String × List String)}
    (hg : (g.map Prod.fst).Nodup) (key p) :
    ((addToGroup g key p).map Prod.fst).Nodup := by
  rw [keys_addToGroup]
  split
  · exact hg
  · rename_i h
    have hk : key ∉ g.map Prod.fst := by
      rw [← alookup_eq_none_iff, ← Option.not_isSome_iff_eq_none]
      simpa [akeyMem] using h
    simp [List.nodup_append, hg, hk]

/-! ## Characterisation of `build_flat_index` -/

/-- The full paths a listing contributes to key `k`, in listing order: the
specification-side description of what the grouping loop collects. -/
def contrib (flat_folder : String) (allowed_exts : Option (List String))
    (l : List String) (k : String) : List String :=
  (l.filter (fun n => keepName allowed_exts n && (pyLower n == k))).map
    (joinPath flat_folder)

theorem akeyMem_addToGroup (g : List (String × List String)) (key p k : String) :
    akeyMem (addToGroup g key p) k = if k = key then true else akeyMem g k := by
  simp only [akeyMem, alookup_addToGroup]
  split <;> simp

theorem getD_foldl_groupStep (flat_folder : String) (allowed_exts : Option (List String)) :
    ∀ (l : List String) (g : List (String × List String)) (k : String),
      (alookup (l.foldl (groupStep flat_folder allowed_exts) g) k).getD [] =
        (alookup g k).getD [] ++ contrib flat_folder allowed_exts l k := by
  intro l
  induction l with
  | nil => intro g k; simp [contrib]
  | cons n ns ih =>
    intro g k
    rw [List.foldl_cons]
    by_cases hkeep : keepName allowed_exts n = true
    · by_cases hk : pyLower n = k
      · have hc : contrib flat_folder allowed_exts (n :: ns) k =
            joinPath flat_folder n :: contrib flat_folder allowed_exts ns k := by
          simp [contrib, List.filter_cons, hkeep, hk]
        rw [hc, groupStep, if_pos hkeep, ih, alookup_addToGroup, hk,
          if_pos rfl]
        simp
      · have hc : contrib flat_folder allowed_exts (n :: ns) k =
            contrib flat_folder allowed_exts ns k := by
          simp [contrib, List.filter_cons, hkeep, hk]
        rw [hc, groupStep, if_pos hkeep, ih, alookup_addToGroup,
          if_neg (fun hh => hk hh.symm)]
    · have hc : contrib flat_folder allowed_exts (n :: ns) k =
          contrib flat_folder allowed_exts ns k := by
        simp [contrib, List.filter_cons, hkeep]
      rw [hc, groupStep, if_neg hkeep, ih]

theorem akeyMem_foldl_groupStep (flat_folder : String) (allowed_exts : Option (List String)) :
    ∀ (l : List String) (g : List (String × List String)) (k : String),
      akeyMem (l.foldl (groupStep flat_folder allowed_exts) g) k =
        (akeyMem g k || !(contrib flat_folder allowed_exts l k).isEmpty) := by
  intro l
  induction l with
  | nil => intro g k; simp [contrib]
  | cons n ns ih =>
    intro g k
    rw [List.foldl_cons]
    by_cases hkeep : keepName allowed_exts n = true
    · by_cases hk : pyLower n = k
      · have hc : contrib flat_folder allowed_exts (n :: ns) k =
            joinPath flat_folder n :: contrib flat_folder allowed_exts ns k := by
          simp [contrib, List.filter_cons, hkeep, hk]
        rw [hc, groupStep, if_pos hkeep, ih, akeyMem_addToGroup,
          if_pos hk.symm]
        simp
      · have hc : contrib flat_folder allowed_exts (n :: ns) k =
            contrib flat_folder allowed_exts ns k := by
          simp [contrib, List.filter_cons, hkeep, hk]
        rw [hc, groupStep, if_pos hkeep, ih, akeyMem_addToGroup,
          if_neg (fun hh => hk hh.symm)]
    · have hc : contrib flat_folder allowed_exts (n :: ns) k =
          contrib flat_folder allowed_exts ns k := by
        simp [contrib, List.filter_cons, hkeep]
      rw [hc, groupStep, if_neg hkeep, ih]

theorem keysNodup_foldl_groupStep (flat_folder : String) (allowed_exts : Option (List String)) :
    ∀ (l : List String) (g : List (String × List String)),
      (g.map Prod.fst).Nodup →
      ((l.foldl (groupStep flat_folder allowed_exts) g).map Prod.fst).Nodup := by
  intro l
  induction l with
  | nil => intro g hg; simpa using hg
  | cons n ns ih =>
    intro g hg
    rw [List.foldl_cons]
    apply ih
    rw [groupStep]
    split
    · exact keysNodup_addToGroup hg _ _
    · exact hg

theorem getD_groupFlat (flat_folder : String) (allowed_exts : Option (List String))
    (l : List String) (k : String) :
    (alookup (groupFlat flat_folder allowed_exts l) k).getD [] =
      contrib flat_folder allowed_exts l k := by
  rw [groupFlat, getD_foldl_groupStep]
  simp [alookup]

theorem akeyMem_groupFlat (flat_folder : String) (allowed_exts : Option (List String))
    (l : List String) (k : String) :
    akeyMem (groupFlat flat_folder allowed_exts l) k =
      !(contrib flat_folder allowed_exts l k).isEmpty := by
  rw [groupFlat, akeyMem_foldl_groupStep]
  simp [akeyMem, alookup]

theorem keysNodup_groupFlat (flat_folder : String) (allowed_exts : Option (List String))
    (l : List String) :
    ((groupFlat flat_folder allowed_exts l).map Prod.fst).Nodup := by
  rw [groupFlat]
  exact keysNodup_foldl_groupStep _ _ _ _ (by simp)

theorem alookup_groupFlat_eq_some (flat_folder : String) (allowed_exts : Option (List String))
    (l : List String) (k : String) (ps : List String) :
    alookup (groupFlat flat_folder allowed_exts l) k = some ps ↔
      (ps = contrib flat_folder allowed_exts l k ∧ ps ≠ []) := by
  constructor
  · intro h
    have h1 := getD_groupFlat flat_folder allowed_exts l k
    rw [h] at h1
    simp only [Option.getD_some] at h1
    refine ⟨h1, ?_⟩
    have h2 := akeyMem_groupFlat flat_folder allowed_exts l k
    rw [akeyMem, h] at h2
    simp only [Option.isSome_some] at h2
    intro hnil
    rw [← h1, hnil] at h2
    simp at h2
  · rintro ⟨rfl, hne⟩
    have h2 := akeyMem_groupFlat flat_folder allowed_exts l k
    have hne' : (contrib flat_folder allowed_exts l k).isEmpty = false := by
      cases hc : contrib flat_folder allowed_exts l k with
      | nil => exact absurd hc hne
      | cons a as => simp
    rw [hne'] at h2
    simp only [akeyMem, Bool.not_false] at h2
    obtain ⟨ps', hps'⟩ := Option.isSome_iff_exists.mp h2
    have h1 := getD_groupFlat flat_folder allowed_exts l k
    rw [hps'] at h1
    simp only [Option.getD_some] at h1
    rw [hps', h1]

theorem alookup_splitIndex_fst :
    ∀ (g : List (String × List String)), (g.map Prod.fst).Nodup → ∀ k,
      alookup (splitIndex g).1 k =
        (alookup g k).bind (fun ps =>
          match ps with
          | [p] => some p
          | _ => none) := by
  intro g
  induction g with
  | nil => intro _ k; simp [splitIndex, alookup]
  | cons kv rest ih =>
    obtain ⟨k0, ps⟩ := kv
    intro hg k
    simp only [List.map_cons, List.nodup_cons] at hg
    have hrest := ih hg.2
    have hnone : alookup rest k0 = none := alookup_eq_none_iff.mpr hg.1
    rcases ps with _ | ⟨p, ps'⟩
    · by_cases hk : k0 = k
      · subst hk
        simp [splitIndex, alookup, hrest, hnone]
      · simp [splitIndex, alookup, hk, hrest]
    · rcases ps' with _ | ⟨q, ps''⟩
      · by_cases hk : k0 = k
        · subst hk
          simp [splitIndex, alookup]
        · simp [splitIndex, alookup, hk, hrest]
      · by_cases hk : k0 = k
        · subst hk
          simp [splitIndex, alookup, hrest, hnone]
        · simp [splitIndex, alookup, hk, hrest]

theorem alookup_splitIndex_snd :
    ∀ (g : List (String × List String)), (g.map Prod.fst).Nodup → ∀ k,
      alookup (splitIndex g).2 k =
        (alookup g k).bind (fun ps =>
          match ps with
          | [_] => none
          | _ => some ps) := by
  intro g
  induction g with
  | nil => intro _ k; simp [splitIndex, alookup]
  | cons kv rest ih =>
    obtain ⟨k0, ps⟩ := kv
    intro hg k
    simp only [List.map_cons, List.nodup_cons] at hg
    have hrest := ih hg.2
    have hnone : alookup rest k0 = none := alookup_eq_none_iff.mpr hg.1
    rcases ps with _ | ⟨p, ps'⟩
    · by_cases hk : k0 = k
      · subst hk
        simp [splitIndex, alookup]
      · simp [splitIndex, alookup, hk, hrest]
    · rcases ps' with _ | ⟨q, ps''⟩
      · by_cases hk : k0 = k
        · subst hk
          simp [splitIndex, alookup, hrest, hnone]
        · simp [splitIndex, alookup, hk, hrest]
      · by_cases hk : k0 = k
        · subst hk
          simp [splitIndex, alookup]
        · simp [splitIndex, alookup, hk, hrest]

theorem keys_splitIndex_fst_sublist :
    ∀ (g : List (String × List String)),
      ((splitIndex g).1.map Prod.fst).Sublist (g.map Prod.fst) := by
  intro g
  induction g with
  | nil => simp [splitIndex]
  | cons kv rest ih =>
    obtain ⟨k0, ps⟩ := kv
    rcases ps with _ | ⟨p, ps'⟩
    · simpa [splitIndex] using ih.cons k0
    · rcases ps' with _ | ⟨q, ps''⟩
      · simpa [splitIndex] using ih.cons₂ k0
      · simpa [splitIndex] using ih.cons k0

theorem keys_splitIndex_snd_sublist :
    ∀ (g : List (String × List String)),
      ((splitIndex g).2.map Prod.fst).Sublist (g.map Prod.fst) := by
  intro g
  induction g with
  | nil => simp [splitIndex]
  | cons kv rest ih =>
    obtain ⟨k0, ps⟩ := kv
    rcases ps with _ | ⟨p, ps'⟩
    · simpa [splitIndex] using ih.cons₂ k0
    · rcases ps' with _ | ⟨q, ps''⟩
      · simpa [splitIndex] using ih.cons k0
      · simpa [splitIndex] using ih.cons₂ k0

/-! ## Corollaries for `build_flat_index` -/

theorem keysNodup_all_build (f : String) (a : Option (List String)) (l : List String) :
    (((build_flat_index f a l).all_files).map Prod.fst).Nodup := by
  simpa [build_flat_index] using keysNodup_groupFlat f a l

theorem keysNodup_dup_build (f : String) (a : Option (List String)) (l : List String) :
    (((build_flat_index f a l).duplicates).map Prod.fst).Nodup := by
  simp only [build_flat_index]
  exact (keys_splitIndex_snd_sublist _).nodup (keysNodup_groupFlat f a l)

theorem alookup_unique_build (f : String) (a : Option (List String)) (l : List String)
    (k p : String) :
    alookup (build_flat_index f a l).unique_lookup k = some p ↔
      contrib f a l k = [p] := by
  simp only [build_flat_index]
  rw [alookup_splitIndex_fst _ (keysNodup_groupFlat f a l)]
  cases hc : alookup (groupFlat f a l) k with
  | none =>
    simp only [Option.none_bind]
    constructor
    · intro h; cases h
    · intro h
      have : akeyMem (groupFlat f a l) k = !(contrib f a l k).isEmpty :=
        akeyMem_groupFlat f a l k
      rw [akeyMem, hc, h] at this
      simp at this
  | some ps =>
    have := (alookup_groupFlat_eq_some f a l k ps).mp hc
    obtain ⟨rfl, hne⟩ := this
    simp only [Option.some_bind]
    rcases hps : contrib f a l k with _ | ⟨x, xs⟩
    · exact absurd hps hne
    · rcases xs with _ | ⟨y, ys⟩
      · simp

      · constructor
        · intro h; cases h
        · intro h; cases h

theorem akeyMem_dup_build (f : String) (a : Option (List String)) (l : List String)
    (k : String) :
    akeyMem (build_flat_index f a l).duplicates k = true ↔
      2 ≤ (contrib f a l k).length := by
  simp only [build_flat_index, akeyMem]
  rw [alookup_splitIndex_snd _ (keysNodup_groupFlat f a l)]
  cases hc : alookup (groupFlat f a l) k with
  | none =>
    simp only [Option.none_bind, Option.isSome_none]
    constructor
    · intro h; cases h
    · intro h
      have h2 : akeyMem (groupFlat f a l) k = !(contrib f a l k).isEmpty :=
        akeyMem_groupFlat f a l k
      rw [akeyMem, hc] at h2
      rcases hps : contrib f a l k with _ | ⟨x, xs⟩
      · rw [hps] at h
        simp at h
      · rw [hps] at h2
        simp at h2
  | some ps =>
    have := (alookup_groupFlat_eq_some f a l k ps).mp hc
    obtain ⟨rfl, hne⟩ := this
    simp only [Option.some_bind]
    rcases hps : contrib f a l k with _ | ⟨x, xs⟩
    · exact absurd hps hne
    · rcases xs with _ | ⟨y, ys⟩
      · simp
      · simp

theorem alookup_dup_build (f : String) (a : Option (List String)) (l : List String)
    (k : String) (ps : List String)
    (h : alookup (build_flat_index f a l).duplicates k = some ps) :
    ps = contrib f a l k ∧ 2 ≤ ps.length := by
  have hmem : akeyMem (build_flat_index f a l).duplicates k = true := by
    simp [akeyMem, h]
  have hlen := (akeyMem_dup_build f a l k).mp hmem
  rw [build_flat_index] at h
  rw [alookup_splitIndex_snd _ (keysNodup_groupFlat f a l)] at h
  cases hc : alookup (groupFlat f a l) k with
  | none => rw [hc] at h; cases h
  | some qs =>
    obtain ⟨rfl, hne⟩ := (alookup_groupFlat_eq_some f a l k qs).mp hc
    rw [hc] at h
    simp only [Option.some_bind] at h
    rcases hps : contrib f a l k with _ | ⟨x, xs⟩
    · exact absurd hps hne
    · rcases xs with _ | ⟨y, ys⟩
      · rw [hps] at hlen
        simp at hlen
      · rw [hps] at h
        cases h
        exact ⟨rfl, by simp only [List.length_cons]; omega⟩

theorem mem_all_build (f : String) (a : Option (List String)) (l : List String)
    (k : String) (ps : List String)
    (h : (k, ps) ∈ (build_flat_index f a l).all_files) :
    ps = contrib f a l k ∧ ps ≠ [] := by
  have := alookup_of_mem_of_nodupKeys (keysNodup_all_build f a l) h
  simp only [build_flat_index] at this
  exact (alookup_groupFlat_eq_some f a l k ps).mp this

/-! ## Path facts -/

theorem joinPath_right_inj {f a b : String} (h : joinPath f a = joinPath f b) :
    a = b := by
  have hd : (joinPath f a).data = (joinPath f b).data := by rw [h]
  simp only [joinPath, String.data_append] at hd
  exact String.ext (List.append_cancel_left hd)

theorem mem_contrib {f : String} {a : Option (List String)} {l : List String}
    {k p : String} :
    p ∈ contrib f a l k ↔
      ∃ n, n ∈ l ∧ keepName a n = true ∧ pyLower n = k ∧ p = joinPath f n := by
  simp only [contrib, List.mem_map, List.mem_filter, Bool.and_eq_true, beq_iff_eq]
  constructor
  · rintro ⟨n, ⟨hn, hkeep, hk⟩, rfl⟩
    exact ⟨n, hn, hkeep, hk, rfl⟩
  · rintro ⟨n, hn, hkeep, hk, rfl⟩
    exact ⟨n, ⟨hn, hkeep, hk⟩, rfl⟩

theorem contrib_key_eq {f : String} {a : Option (List String)} {l : List String}
    {k k' p : String} (h : p ∈ contrib f a l k) (h' : p ∈ contrib f a l k') :
    k = k' := by
  obtain ⟨n, _, _, hk, rfl⟩ := mem_contrib.mp h
  obtain ⟨n', _, _, hk', heq⟩ := mem_contrib.mp h'
  have := joinPath_right_inj heq
  subst this
  rw [← hk, ← hk']

/-! ## Invariants of the reconciliation loops -/

theorem foldl_inv {σ α : Type _} (P : σ → Prop) (f : σ → α → σ)
    (hstep : ∀ s a, P s → P (f s a)) :
    ∀ (l : List α) (s : σ), P s → P (l.foldl f s) := by
  intro l
  induction l with
  | nil => intro s hs; exact hs
  | cons a as ih => intro s hs; exact ih _ (hstep s a hs)

/-- Every considered item bumps exactly one outcome counter. -/
def counterBalance (st : RunState) : Prop :=
  st.counted =
    st.moved_or_copied + st.missing_not_found + st.skipped_duplicates + st.errors

theorem counterBalance_processItem (idx : FlatIndex) (mv : Bool) (ri : Option Nat)
    (sd tr en dd dp : String) (st : RunState) (h : counterBalance st) :
    counterBalance (processItem idx mv ri sd tr en dd dp st) := by
  unfold counterBalance at h ⊢
  simp only [processItem, placeFile]
  repeat' split
  all_goals simp
  all_goals omega

theorem counterBalance_treeStep (idx : FlatIndex) (mv : Bool) (oe os : String)
    (sa : Bool) (ie : List String) (dr : String) (st : RunState) (item : TreeItem)
    (h : counterBalance st) :
    counterBalance (treeStep idx mv oe os sa ie dr st item) := by
  unfold treeStep
  split
  · exact counterBalance_processItem _ _ _ _ _ _ _ _ _ h
  · exact h

theorem counterBalance_mappingStep (idx : FlatIndex) (mv : Bool) (oe os : String)
    (fp : Bool) (dr : String) (st : RunState) (ir : Nat × MapRow)
    (h : counterBalance st) :
    counterBalance (mappingStep idx mv oe os fp dr st ir) := by
  unfold mappingStep
  split
  · exact h
  · exact counterBalance_processItem _ _ _ _ _ _ _ _ _ h

/-- Every successful placement came out of `unique_lookup` and left its key in
the consumed set. -/
def placedInv (idx : FlatIndex) (st : RunState) : Prop :=
  ∀ pr ∈ st.placements,
    ∃ k, alookup idx.unique_lookup k = some pr.1 ∧ k ∈ st.used_unique

theorem mem_insertUsed (us : List String) (key k : String) (h : k ∈ us) :
    k ∈ (if key ∈ us then us else key :: us) := by
  split
  · exact h
  · exact List.mem_cons_of_mem _ h

theorem self_mem_insertUsed (us : List String) (key : String) :
    key ∈ (if key ∈ us then us else key :: us) := by
  split
  · assumption
  · exact List.mem_cons_self _ _

theorem placedInv_processItem (idx : FlatIndex) (mv : Bool) (ri : Option Nat)
    (sd tr en dd dp : String) (st : RunState) (h : placedInv idx st) :
    placedInv idx (processItem idx mv ri sd tr en dd dp st) := by
  unfold placedInv at h ⊢
  simp only [processItem]
  split
  · intro pr hpr
    exact h pr hpr
  · split
    · intro pr hpr
      exact h pr hpr
    · rename_i src hsrc
      simp only [placeFile]
      split
      · intro pr hpr
        have hpr' : pr ∈ st.placements ++ [(src, dp)] := hpr
        rw [List.mem_append, List.mem_singleton] at hpr'
        rcases hpr' with hpr' | rfl
        · obtain ⟨k, hk, hku⟩ := h pr hpr'
          exact ⟨k, hk, mem_insertUsed _ _ _ hku⟩
        · exact ⟨pyLower en, hsrc, self_mem_insertUsed _ _⟩
      · intro pr hpr
        exact h pr hpr

theorem placedInv_treeStep (idx : FlatIndex) (mv : Bool) (oe os : String)
    (sa : Bool) (ie : List String) (dr : String) (st : RunState) (item : TreeItem)
    (h : placedInv idx st) :
    placedInv idx (treeStep idx mv oe os sa ie dr st item) := by
  unfold treeStep
  split
  · exact placedInv_processItem _ _ _ _ _ _ _ _ _ h
  · exact h

theorem placedInv_mappingStep (idx : FlatIndex) (mv : Bool) (oe os : String)
    (fp : Bool) (dr : String) (st : RunState) (ir : Nat × MapRow)
    (h : placedInv idx st) :
    placedInv idx (mappingStep idx mv oe os fp dr st ir) := by
  unfold mappingStep
  split
  · exact h
  · exact placedInv_processItem _ _ _ _ _ _ _ _ _ h

theorem placedInv_recreate_loop (cfg : TreeConfig) (idx : FlatIndex)
    (live0 : List String) (items : List TreeItem) :
    placedInv idx (recreate_loop cfg idx live0 items) := by
  unfold recreate_loop
  apply foldl_inv (placedInv idx)
  · intro s a hs
    exact placedInv_treeStep _ _ _ _ _ _ _ _ _ hs
  · intro pr hpr
    simp [initState] at hpr

theorem placedInv_mapping_loop (cfg : MappingConfig) (idx : FlatIndex)
    (live0 : List String) (rows : List MapRow) :
    placedInv idx (mapping_loop cfg idx live0 rows) := by
  unfold mapping_loop
  apply foldl_inv (placedInv idx)
  · intro s a hs
    exact placedInv_mappingStep _ _ _ _ _ _ _ _ hs
  · intro pr hpr
    simp [initState] at hpr

/-- In move mode: the flat folder stays duplicate-free, placed sources are
gone from it, and no flat file is ever placed twice. -/
def moveInv (st : RunState) : Prop :=
  st.live.Nodup ∧ (∀ p ∈ placedSources st, p ∉ st.live) ∧ (placedSources st).Nodup

theorem moveInv_processItem (idx : FlatIndex) (ri : Option Nat)
    (sd tr en dd dp : String) (st : RunState) (h : moveInv st) :
    moveInv (processItem idx true ri sd tr en dd dp st) := by
  obtain ⟨hlive, hgone, hnd⟩ := h
  simp only [processItem]
  split
  · exact ⟨hlive, hgone, hnd⟩
  · split
    · exact ⟨hlive, hgone, hnd⟩
    · rename_i src hsrc
      simp only [placeFile]
      split
      · rename_i hin
        refine ⟨?_, ?_, ?_⟩
        · exact hlive.erase src
        · intro p hp
          have hp' : p ∈ (st.placements ++ [(src, dp)]).map Prod.fst := hp
          rw [List.map_append] at hp'
          simp only [List.map_cons, List.map_nil, List.mem_append,
            List.mem_singleton] at hp'
          intro hmem
          have hmem' : p ∈ st.live.erase src := hmem
          rcases hp' with hp' | rfl
          · exact hgone p hp' (List.mem_of_mem_erase hmem')
          · rw [hlive.mem_erase_iff] at hmem'
            exact hmem'.1 rfl
        · show ((st.placements ++ [(src, dp)]).map Prod.fst).Nodup
          rw [List.map_append, List.nodup_append]
          refine ⟨hnd, by simp, ?_⟩
          intro p hp hp'
          simp only [List.map_cons, List.map_nil, List.mem_singleton] at hp'
          subst hp'
          exact hgone p hp hin
      · exact ⟨hlive, hgone, hnd⟩

theorem moveInv_treeStep (idx : FlatIndex) (oe os : String)
    (sa : Bool) (ie : List String) (dr : String) (st : RunState) (item : TreeItem)
    (h : moveInv st) :
    moveInv (treeStep idx true oe os sa ie dr st item) := by
  unfold treeStep
  split
  · exact moveInv_processItem _ _ _ _ _ _ _ _ h
  · exact h

theorem moveInv_mappingStep (idx : FlatIndex) (oe os : String)
    (fp : Bool) (dr : String) (st : RunState) (ir : Nat × MapRow)
    (h : moveInv st) :
    moveInv (mappingStep idx true oe os fp dr st ir) := by
  unfold mappingStep
  split
  · exact h
  · exact moveInv_processItem _ _ _ _ _ _ _ _ h

/-- Membership in the computed orphan paths, unfolded. -/
theorem mem_orphanPaths (idx : FlatIndex) (used : List String) (p : String) :
    p ∈ orphanPaths idx used ↔
      ∃ k ps, (k, ps) ∈ idx.all_files ∧ p ∈ ps ∧
        (akeyMem idx.duplicates k = true ∨ k ∉ used) := by
  constructor
  · intro hp
    rw [orphanPaths, List.mem_map] at hp
    obtain ⟨row, hrow, rfl⟩ := hp
    rw [orphansOf, mem_concatAll] at hrow
    obtain ⟨lrow, hl, hrl⟩ := hrow
    rw [List.mem_map] at hl
    obtain ⟨⟨k, ps⟩, hkps, rfl⟩ := hl
    rw [List.mem_filterMap] at hrl
    obtain ⟨q, hq, hg⟩ := hrl
    by_cases hcond : akeyMem idx.duplicates k = true ∨ k ∉ used
    · rw [if_pos hcond] at hg
      cases hg
      exact ⟨k, ps, hkps, hq, hcond⟩
    · rw [if_neg hcond] at hg
      cases hg
  · rintro ⟨k, ps, hkps, hq, hcond⟩
    rw [orphanPaths, List.mem_map]
    refine ⟨⟨basename p, p⟩, ?_, rfl⟩
    rw [orphansOf, mem_concatAll]
    refine ⟨_, List.mem_map_of_mem _ hkps, ?_⟩
    rw [List.mem_filterMap]
    exact ⟨p, hq, by rw [if_pos hcond]⟩

/-- Membership in the duplicate files, unfolded. -/
theorem mem_dupPathsOf (idx : FlatIndex) (p : String) :
    p ∈ dupPathsOf idx ↔ ∃ k ps, (k, ps) ∈ idx.duplicates ∧ p ∈ ps := by
  rw [dupPathsOf, mem_concatAll]
  constructor
  · rintro ⟨ps, hps, hp⟩
    rw [List.mem_map] at hps
    obtain ⟨⟨k, ps'⟩, hmem, rfl⟩ := hps
    exact ⟨k, ps', hmem, hp⟩
  · rintro ⟨k, ps, hmem, hp⟩
    exact ⟨ps, List.mem_map_of_mem _ hmem, hp⟩

/-- A file stored under a duplicate key never also appears as a unique-key
file: the two halves of the index are disjoint at path level. -/
theorem dup_unique_disjoint (f : String) (a : Option (List String)) (l : List String)
    (p : String) (hp : p ∈ dupPathsOf (build_flat_index f a l)) (k : String)
    (hk : alookup (build_flat_index f a l).unique_lookup k = some p) : False := by
  obtain ⟨k', ps', hk'mem, hpmem⟩ := (mem_dupPathsOf _ _).mp hp
  have hlk' := alookup_of_mem_of_nodupKeys (keysNodup_dup_build f a l) hk'mem
  obtain ⟨hps_eq, hlen⟩ := alookup_dup_build f a l k' ps' hlk'
  have hu := (alookup_unique_build f a l k p).mp hk
  have hpk : p ∈ contrib f a l k := by rw [hu]; exact List.mem_singleton_self p
  have hpk' : p ∈ contrib f a l k' := by rw [← hps_eq]; exact hpmem
  have hkk : k = k' := contrib_key_eq hpk hpk'
  subst hkk
  rw [hu] at hps_eq
  rw [hps_eq] at hlen
  simp at hlen

/-- Projections of `placeFile` that never change, whichever branch runs. -/
theorem placeFile_missing_not_found (mv : Bool) (key src dd dp : String) (st : RunState) :
    (placeFile mv key src dd dp st).missing_not_found = st.missing_not_found := by
  simp only [placeFile]
  split <;> rfl

theorem placeFile_skipped_duplicates (mv : Bool) (key src dd dp : String) (st : RunState) :
    (placeFile mv key src dd dp st).skipped_duplicates = st.skipped_duplicates := by
  simp only [placeFile]
  split <;> rfl

theorem placeFile_missing_rows (mv : Bool) (key src dd dp : String) (st : RunState) :
    (placeFile mv key src dd dp st).missing_rows = st.missing_rows := by
  simp only [placeFile]
  split <;> rfl

/-- Soundness of the bounded probe: a successful probe returns the first free
candidate at or after `start`, every earlier candidate having been tested and
found occupied. -/
theorem probeFrom_spec (ex : String → Bool) (base ext : String) :
    ∀ (fuel start n : Nat), probeFrom ex base ext start fuel = some n →
      start ≤ n ∧ ex (candidate base ext n) = false ∧
        ∀ m, start ≤ m → m < n → ex (candidate base ext m) = true := by
  intro fuel
  induction fuel with
  | zero => intro start n h; cases h
  | succ fuel ih =>
    intro start n h
    rw [probeFrom] at h
    by_cases hex : ex (candidate base ext start) = true
    · rw [if_pos hex] at h
      obtain ⟨h1, h2, h3⟩ := ih (start + 1) n h
      refine ⟨by omega, h2, ?_⟩
      intro m hm hmn
      rcases Nat.eq_or_lt_of_le hm with rfl | hlt
      · exact hex
      · exact h3 m hlt hmn
    · rw [if_neg hex] at h
      cases h
      refine ⟨Nat.le_refl _, by simpa using hex, ?_⟩
      intro m hm hmn
      omega

/-- Replay of the directory-creating effects against a set of existing
directories (`os.makedirs(..., exist_ok=True)`); file moves/copies do not
change which directories exist. -/
def applyEffects (dirs : List String) : List Effect → List String
  | [] => dirs
  | Effect.mkDir d :: es => applyEffects (if d ∈ dirs then dirs else dirs ++ [d]) es
  | Effect.movedFile _ _ :: es => applyEffects dirs es
  | Effect.copiedFile _ _ :: es => applyEffects dirs es

/-! ## Claim theorems -/

/-- C10: in every run of the tree-mode rebuild loop each source file that
passes the include filter receives exactly one outcome, so the final counters
satisfy `inputs_scanned = moved_or_copied + missing_not_found +
skipped_duplicates + errors`. -/
theorem C10_tree_counter_partition (cfg : TreeConfig) (idx : FlatIndex)
    (live0 : List String) (items : List TreeItem) :
    (recreate_loop cfg idx live0 items).counted =
      (recreate_loop cfg idx live0 items).moved_or_copied +
        (recreate_loop cfg idx live0 items).missing_not_found +
        (recreate_loop cfg idx live0 items).skipped_duplicates +
        (recreate_loop cfg idx live0 items).errors := by
  have h := foldl_inv counterBalance
    (treeStep idx cfg.move_files (normalizeOutputExt cfg.output_ext)
      (pyStrip cfg.output_suffix) cfg.scan_all cfg.include_exts cfg.destination_root)
    (fun s a hs => counterBalance_treeStep _ _ _ _ _ _ _ _ _ hs)
    items (initState live0) (by simp [counterBalance, initState])
  exact h

/-- C4: a SourceItem is classified Missing (reason "Not found in flat folder",
counted in `missing_not_found`) if and only if its expected key is absent from
both `unique_lookup` and `duplicates`. -/
theorem C4_missing_iff_absent (idx : FlatIndex) (mv : Bool) (ri : Option Nat)
    (sd tr en dd dp : String) (st : RunState) :
    ((processItem idx mv ri sd tr en dd dp st).missing_not_found =
        st.missing_not_found + 1 ∧
      (processItem idx mv ri sd tr en dd dp st).missing_rows =
        st.missing_rows ++ [⟨ri, sd, tr, en, "Not found in flat folder"⟩]) ↔
      (alookup idx.unique_lookup (pyLower en) = none ∧
        akeyMem idx.duplicates (pyLower en) = false) := by
  simp only [processItem]
  split
  · rename_i hdup
    constructor
    · rintro ⟨hc, -⟩
      exfalso
      have hc' : st.missing_not_found = st.missing_not_found + 1 := hc
      omega
    · rintro ⟨-, hfalse⟩
      rw [hdup] at hfalse
      cases hfalse
  · rename_i hndup
    split
    · rename_i hnone
      constructor
      · intro _
        refine ⟨hnone, ?_⟩
        simpa using hndup
      · intro _
        exact ⟨rfl, rfl⟩
    · rename_i src hsrc
      constructor
      · rintro ⟨hc, -⟩
        exfalso
        rw [placeFile_missing_not_found] at hc
        have hc' : st.missing_not_found = st.missing_not_found + 1 := hc
        omega
      · rintro ⟨hn, -⟩
        rw [hsrc] at hn
        cases hn

/-- C7: a mapping row whose directory or name cell is blank (missing/NaN or
whitespace-only) is a complete no-op: not counted, not reported, no effect. -/
theorem C7_blank_rows_skipped (idx : FlatIndex) (mv : Bool) (oe os : String)
    (fp : Bool) (dr : String) (st : RunState) (i : Nat) (r : MapRow)
    (h : isBlankCell r.dir_val = true ∨ isBlankCell r.name_val = true) :
    mappingStep idx mv oe os fp dr st (i, r) = st := by
  simp only [mappingStep]
  rcases h with h | h <;> simp [h]

/-- Witness for C7 at a concrete blank row. -/
theorem C7_blank_rows_skipped_witness :
    mappingStep ⟨[], [], []⟩ true ".pdf" "" false "D" (initState [])
        (0, ⟨none, some "x"⟩) = initState [] :=
  C7_blank_rows_skipped _ _ _ _ _ _ _ _ _ (Or.inl (by decide))

/-- C5: the configured output extensions ".PDF", "pdf" and ".pdf" all
normalise to the identical matching extension, and in mapping mode the name
values "thing.dgn" and "thing" both resolve to the same expected key, equal to
"thing" + suffix + outputExt, lowercased. -/
theorem C5_suffix_extension_normalization (suffix ext : String) :
    (normalizeOutputExt ".PDF" = ".pdf" ∧ normalizeOutputExt "pdf" = ".pdf" ∧
      normalizeOutputExt ".pdf" = ".pdf") ∧
    pyLower (mapping_expected_name "thing.dgn" suffix ext) =
      pyLower (mapping_expected_name "thing" suffix ext) ∧
    pyLower (mapping_expected_name "thing" suffix ext) =
      pyLower ("thing" ++ suffix ++ ext) := by
  have h1 : mapping_expected_name "thing.dgn" suffix ext = "thing" ++ suffix ++ ext := by
    unfold mapping_expected_name
    have hb : pyStrip (splitext (pyStrip "thing.dgn")).1 = "thing" := by decide
    simp only []
    rw [hb]
  have h2 : mapping_expected_name "thing" suffix ext = "thing" ++ suffix ++ ext := by
    unfold mapping_expected_name
    have hb : pyStrip (splitext (pyStrip "thing")).1 = "thing" := by decide
    simp only []
    rw [hb]
  refine ⟨⟨by decide, by decide, by decide⟩, ?_, ?_⟩
  · rw [h1, h2]
  · rw [h2]

/-- C9: given a (non-empty) report path, the written workbook has exactly the
four sheets Summary, Missing, Duplicates and Orphans, in that order; an empty
row category still yields a sheet carrying the correct column headers. -/
theorem C9_report_sheets (rp : String) (s : List (String × String))
    (m : List MissingRow) (d : List DuplicateRow) (o : List OrphanRow)
    (h : rp ≠ "") :
    (write_report_one_workbook rp s m d o).map (fun sheets => sheets.map Prod.fst) =
      some ["Summary", "Missing", "Duplicates", "Orphans"] ∧
    (dfOfMissing m).header =
      ["row_index", "source", "target_folder_rel", "expected_output_name", "reason"] ∧
    (dfOfDuplicates d).header = ["flat_filename", "duplicate_count", "flat_full_path"] ∧
    (dfOfOrphans o).header = ["flat_filename", "flat_full_path"] ∧
    write_report_one_workbook rp [] [] [] [] =
      some [("Summary", ⟨[], 1⟩),
            ("Missing",
              ⟨["row_index", "source", "target_folder_rel", "expected_output_name",
                "reason"], 0⟩),
            ("Duplicates", ⟨["flat_filename", "duplicate_count", "flat_full_path"], 0⟩),
            ("Orphans", ⟨["flat_filename", "flat_full_path"], 0⟩)] := by
  refine ⟨?_, ?_, ?_, ?_, ?_⟩
  · rw [write_report_one_workbook, if_neg h]
    rfl
  · rw [dfOfMissing]
    split <;> rfl
  · rw [dfOfDuplicates]
    split <;> rfl
  · rw [dfOfOrphans]
    split <;> rfl
  · rw [write_report_one_workbook, if_neg h]
    rfl

/-- Witness for C9 at a concrete report path with every category empty. -/
theorem C9_report_sheets_witness :
    (write_report_one_workbook "r.xlsx" [] [] [] []).map
        (fun sheets => sheets.map Prod.fst) =
      some ["Summary", "Missing", "Duplicates", "Orphans"] ∧
    (dfOfMissing []).header =
      ["row_index", "source", "target_folder_rel", "expected_output_name", "reason"] ∧
    (dfOfDuplicates []).header = ["flat_filename", "duplicate_count", "flat_full_path"] ∧
    (dfOfOrphans []).header = ["flat_filename", "flat_full_path"] ∧
    write_report_one_workbook "r.xlsx" [] [] [] [] =
      some [("Summary", ⟨[], 1⟩),
            ("Missing",
              ⟨["row_index", "source", "target_folder_rel", "expected_output_name",
                "reason"], 0⟩),
            ("Duplicates", ⟨["flat_filename", "duplicate_count", "flat_full_path"], 0⟩),
            ("Orphans", ⟨["flat_filename", "flat_full_path"], 0⟩)] :=
  C9_report_sheets "r.xlsx" [] [] [] [] (by decide)

/-- C2: an expected key present in `duplicates` always classifies as
SkippedDuplicate — counted in `skipped_duplicates` and reported with reason
"Duplicate filename in flat folder (skipped)", with no other state change —
and no file belonging to a duplicate group is ever moved or copied by either
reconciliation loop. -/
theorem C2_duplicate_safety
    (f : String) (a : Option (List String)) (l : List String)
    (mv : Bool) (ri : Option Nat) (sd tr en dd dp : String) (st : RunState)
    (tcfg : TreeConfig) (mcfg : MappingConfig) (live0 : List String)
    (items : List TreeItem) (rows : List MapRow) (p : String)
    (hdup : akeyMem (build_flat_index f a l).duplicates (pyLower en) = true)
    (hp : p ∈ dupPathsOf (build_flat_index f a l)) :
    processItem (build_flat_index f a l) mv ri sd tr en dd dp st =
      { st with
        counted := st.counted + 1,
        skipped_duplicates := st.skipped_duplicates + 1,
        missing_rows := st.missing_rows ++
          [⟨ri, sd, tr, en, "Duplicate filename in flat folder (skipped)"⟩] } ∧
    p ∉ placedSources (recreate_loop tcfg (build_flat_index f a l) live0 items) ∧
    p ∉ placedSources (mapping_loop mcfg (build_flat_index f a l) live0 rows) := by
  refine ⟨?_, ?_, ?_⟩
  · simp only [processItem]
    rw [if_pos hdup]
  · intro hmem
    obtain ⟨pr, hpr, hfst⟩ := List.mem_map.mp hmem
    obtain ⟨k, hk, -⟩ := placedInv_recreate_loop tcfg _ live0 items pr hpr
    rw [hfst] at hk
    exact dup_unique_disjoint f a l p hp k hk
  · intro hmem
    obtain ⟨pr, hpr, hfst⟩ := List.mem_map.mp hmem
    obtain ⟨k, hk, -⟩ := placedInv_mapping_loop mcfg _ live0 rows pr hpr
    rw [hfst] at hk
    exact dup_unique_disjoint f a l p hp k hk

/-- Witness for C2: case-variant duplicates `b.pdf` / `B.PDF` in the flat
folder. -/
theorem C2_duplicate_safety_witness :
    processItem (build_flat_index "F" (some [".pdf"]) ["b.pdf", "B.PDF"]) true none
        "s" "" "b.pdf" "D" "D\\b.pdf" (initState []) =
      { initState [] with
        counted := (initState []).counted + 1,
        skipped_duplicates := (initState []).skipped_duplicates + 1,
        missing_rows := (initState []).missing_rows ++
          [⟨none, "s", "", "b.pdf", "Duplicate filename in flat folder (skipped)"⟩] } ∧
    "F\\b.pdf" ∉ placedSources (recreate_loop ⟨"O", "F", "D", true, true, [], ".pdf", ""⟩
        (build_flat_index "F" (some [".pdf"]) ["b.pdf", "B.PDF"]) [] []) ∧
    "F\\b.pdf" ∉ placedSources (mapping_loop
        ⟨"S", "Sheet1", "F", "D", "Directory", "Name", ".pdf", "", false, true⟩
        (build_flat_index "F" (some [".pdf"]) ["b.pdf", "B.PDF"]) [] []) :=
  C2_duplicate_safety "F" (some [".pdf"]) ["b.pdf", "B.PDF"] true none "s" "" "b.pdf"
    "D" "D\\b.pdf" (initState []) ⟨"O", "F", "D", true, true, [], ".pdf", ""⟩
    ⟨"S", "Sheet1", "F", "D", "Directory", "Name", ".pdf", "", false, true⟩ [] [] []
    "F\\b.pdf" (by decide) (by decide)

/-- The orphan set computed from a built index and a consumed-key set is
exactly the union of duplicate-group files and unconsumed unique files. -/
theorem orphanPaths_iff_build (f : String) (a : Option (List String))
    (l : List String) (used : List String) (p : String) :
    p ∈ orphanPaths (build_flat_index f a l) used ↔
      (p ∈ dupPathsOf (build_flat_index f a l) ∨
        ∃ k, alookup (build_flat_index f a l).unique_lookup k = some p ∧
          k ∉ used) := by
  constructor
  · intro hp
    obtain ⟨k, ps, hkps, hpmem, hcond⟩ := (mem_orphanPaths _ _ _).mp hp
    obtain ⟨hps_eq, hne⟩ := mem_all_build f a l k ps hkps
    subst hps_eq
    rcases hlen : contrib f a l k with _ | ⟨x, xs⟩
    · exact absurd hlen hne
    · rcases xs with _ | ⟨y, ys⟩
      · rw [hlen] at hpmem
        have hpx : p = x := by simpa using hpmem
        subst hpx
        right
        refine ⟨k, (alookup_unique_build f a l k p).mpr hlen, ?_⟩
        rcases hcond with hcond | hcond
        · exfalso
          have hge := (akeyMem_dup_build f a l k).mp hcond
          rw [hlen] at hge
          simp at hge
        · exact hcond
      · left
        have hdup : akeyMem (build_flat_index f a l).duplicates k = true := by
          apply (akeyMem_dup_build f a l k).mpr
          rw [hlen]
          simp only [List.length_cons]
          omega
        have hdup' : (alookup (build_flat_index f a l).duplicates k).isSome = true :=
          hdup
        obtain ⟨qs, hqs⟩ := Option.isSome_iff_exists.mp hdup'
        obtain ⟨hqs_eq, -⟩ := alookup_dup_build f a l k qs hqs
        apply (mem_dupPathsOf _ _).mpr
        refine ⟨k, qs, mem_of_alookup_eq_some hqs, ?_⟩
        rw [hqs_eq]
        exact hpmem
  · rintro (hdup | ⟨k, hk, hku⟩)
    · obtain ⟨k, ps, hkmem, hpmem⟩ := (mem_dupPathsOf _ _).mp hdup
      have hlk := alookup_of_mem_of_nodupKeys (keysNodup_dup_build f a l) hkmem
      obtain ⟨hps_eq, hlen⟩ := alookup_dup_build f a l k ps hlk
      apply (mem_orphanPaths _ _ _).mpr
      refine ⟨k, ps, ?_, hpmem, Or.inl ?_⟩
      · apply mem_of_alookup_eq_some
        show alookup (groupFlat f a l) k = some ps
        apply (alookup_groupFlat_eq_some f a l k ps).mpr
        refine ⟨hps_eq, ?_⟩
        intro hnil
        rw [hnil] at hlen
        simp at hlen
      · simp [akeyMem, hlk]
    · have hc := (alookup_unique_build f a l k p).mp hk
      apply (mem_orphanPaths _ _ _).mpr
      refine ⟨k, [p], ?_, List.mem_singleton_self p, Or.inr hku⟩
      apply mem_of_alookup_eq_some
      show alookup (groupFlat f a l) k = some [p]
      exact (alookup_groupFlat_eq_some f a l k [p]).mpr ⟨hc.symm, by simp⟩

/-- C3: the computed orphan set is exactly (all files under duplicate keys) ∪
(unique-key files whose key was never consumed), and no flat file placed by
the run is also reported as an orphan — for both run modes. -/
theorem C3_orphan_completeness
    (f : String) (a : Option (List String)) (l : List String) (used : List String)
    (tcfg : TreeConfig) (mcfg : MappingConfig) (live0 : List String)
    (items : List TreeItem) (rows : List MapRow) (p : String) :
    (p ∈ orphanPaths (build_flat_index f a l) used ↔
      (p ∈ dupPathsOf (build_flat_index f a l) ∨
        ∃ k, alookup (build_flat_index f a l).unique_lookup k = some p ∧
          k ∉ used)) ∧
    (p ∈ placedSources (recreate_loop tcfg (build_flat_index f a l) live0 items) →
      p ∉ orphanPaths (build_flat_index f a l)
        (recreate_loop tcfg (build_flat_index f a l) live0 items).used_unique) ∧
    (p ∈ placedSources (mapping_loop mcfg (build_flat_index f a l) live0 rows) →
      p ∉ orphanPaths (build_flat_index f a l)
        (mapping_loop mcfg (build_flat_index f a l) live0 rows).used_unique) := by
  refine ⟨orphanPaths_iff_build f a l used p, ?_, ?_⟩
  · intro hmem horph
    obtain ⟨pr, hpr, hfst⟩ := List.mem_map.mp hmem
    obtain ⟨k, hk, hku⟩ := placedInv_recreate_loop tcfg _ live0 items pr hpr
    rw [hfst] at hk
    rcases (orphanPaths_iff_build f a l _ p).mp horph with hdup | ⟨kk, hkk, hkku⟩
    · exact dup_unique_disjoint f a l p hdup k hk
    · have h1 : p ∈ contrib f a l k := by
        rw [(alookup_unique_build f a l k p).mp hk]
        exact List.mem_singleton_self p
      have h2 : p ∈ contrib f a l kk := by
        rw [(alookup_unique_build f a l kk p).mp hkk]
        exact List.mem_singleton_self p
      have hkeq : kk = k := contrib_key_eq h2 h1
      subst hkeq
      exact hkku hku
  · intro hmem horph
    obtain ⟨pr, hpr, hfst⟩ := List.mem_map.mp hmem
    obtain ⟨k, hk, hku⟩ := placedInv_mapping_loop mcfg _ live0 rows pr hpr
    rw [hfst] at hk
    rcases (orphanPaths_iff_build f a l _ p).mp horph with hdup | ⟨kk, hkk, hkku⟩
    · exact dup_unique_disjoint f a l p hdup k hk
    · have h1 : p ∈ contrib f a l k := by
        rw [(alookup_unique_build f a l k p).mp hk]
        exact List.mem_singleton_self p
      have h2 : p ∈ contrib f a l kk := by
        rw [(alookup_unique_build f a l kk p).mp hkk]
        exact List.mem_singleton_self p
      have hkeq : kk = k := contrib_key_eq h2 h1
      subst hkeq
      exact hkku hku

/-- C1 counterexample: in copy mode, the two tree items `a.dgn` and `a.tif`
both resolve to the expected key `a.pdf`, present in `unique`, and the run
copies that one flat file twice — the loop never re-checks the consumed-key
set before placing, so "each unique entry is consumed at most once" fails as
stated. -/
theorem C1_counterexample :
    ((recreate_from_original_tree
        ⟨"O", "F", "D", false, true, [], ".pdf", ""⟩
        ⟨fun _ => true, fun _ => true⟩
        ["a.pdf"]
        [⟨"O", "", "a.dgn"⟩, ⟨"O", "", "a.tif"⟩]).2.toOption.map
      (fun r => placedSources r.state)) = some ["F\\a.pdf", "F\\a.pdf"] ∧
    ¬ (["F\\a.pdf", "F\\a.pdf"] : List String).Nodup := by
  refine ⟨by decide, by decide⟩

/-- C1 amended: whenever the run moves files (move mode), each flat file is
placed at most once across the whole run — a later SourceItem resolving to an
already-consumed key finds the source gone and records an error instead. (In
copy mode the code places the file once per SourceItem resolving to its key,
as the counterexample shows.) -/
theorem C1_amended_move_places_at_most_once (tcfg : TreeConfig)
    (mcfg : MappingConfig) (idx : FlatIndex) (live0 : List String)
    (items : List TreeItem) (rows : List MapRow)
    (hmv : tcfg.move_files = true) (hmv' : mcfg.move_files = true)
    (h0 : live0.Nodup) :
    (placedSources (recreate_loop tcfg idx live0 items)).Nodup ∧
    (placedSources (mapping_loop mcfg idx live0 rows)).Nodup := by
  have hinit : moveInv (initState live0) := by
    refine ⟨h0, ?_, ?_⟩
    · intro p hp
      simp [placedSources, initState] at hp
    · simp [placedSources, initState]
  constructor
  · have h : moveInv (items.foldl
        (treeStep idx tcfg.move_files (normalizeOutputExt tcfg.output_ext)
          (pyStrip tcfg.output_suffix) tcfg.scan_all tcfg.include_exts
          tcfg.destination_root)
        (initState live0)) := by
      rw [hmv]
      exact foldl_inv moveInv _
        (fun s it hs => moveInv_treeStep _ _ _ _ _ _ s it hs) items _ hinit
    exact h.2.2
  · have h : moveInv ((withIdx 0 rows).foldl
        (mappingStep idx mcfg.move_files (normalizeOutputExt mcfg.output_ext)
          (pyStrip mcfg.output_suffix) mcfg.directory_is_full_path
          mcfg.destination_root)
        (initState live0)) := by
      rw [hmv']
      exact foldl_inv moveInv _
        (fun s ir hs => moveInv_mappingStep _ _ _ _ _ s ir hs) (withIdx 0 rows) _ hinit
    exact h.2.2

/-- Witness for C1 amended, at the counterexample input run in move mode. -/
theorem C1_amended_move_places_at_most_once_witness :
    (placedSources (recreate_loop ⟨"O", "F", "D", true, true, [], ".pdf", ""⟩
        (build_flat_index "F" (some [".pdf"]) ["a.pdf"]) ["F\\a.pdf"]
        [⟨"O", "", "a.dgn"⟩, ⟨"O", "", "a.tif"⟩])).Nodup ∧
    (placedSources (mapping_loop
        ⟨"S", "Sheet1", "F", "D", "Directory", "Name", ".pdf", "", false, true⟩
        (build_flat_index "F" (some [".pdf"]) ["a.pdf"]) ["F\\a.pdf"]
        [⟨some "sub\\x", some "a.dgn"⟩, ⟨some "sub\\y", some "a.tif"⟩])).Nodup :=
  C1_amended_move_places_at_most_once
    ⟨"O", "F", "D", true, true, [], ".pdf", ""⟩
    ⟨"S", "Sheet1", "F", "D", "Directory", "Name", ".pdf", "", false, true⟩
    (build_flat_index "F" (some [".pdf"]) ["a.pdf"]) ["F\\a.pdf"]
    [⟨"O", "", "a.dgn"⟩, ⟨"O", "", "a.tif"⟩]
    [⟨some "sub\\x", some "a.dgn"⟩, ⟨some "sub\\y", some "a.tif"⟩]
    rfl rfl (by decide)

/-- C6 counterexample: mapping mode with an existing spreadsheet and flat
folder but a worksheet missing the configured directory column aborts with a
configuration error, yet the destination root has already been created — the
system is not left unchanged. -/
theorem C6_counterexample :
    ((process_from_excel_mapping
        ⟨"S", "Sheet1", "F", "D", "Directory", "Name", ".pdf", "", false, true⟩
        ⟨fun d => d == "F", fun x => x == "S"⟩
        (some (["Other"], []))
        []).2.toOption = none) ∧
    applyEffects ["F"]
        (process_from_excel_mapping
          ⟨"S", "Sheet1", "F", "D", "Directory", "Name", ".pdf", "", false, true⟩
          ⟨fun d => d == "F", fun x => x == "S"⟩
          (some (["Other"], []))
          []).1 = ["F", "D"] ∧
    (["F", "D"] : List String) ≠ ["F"] := by
  refine ⟨by decide, by decide, by decide⟩

/-- C6 amended: every configuration failure aborts before any file is moved or
copied; a missing original root or flat folder (tree mode) or a missing
spreadsheet file or flat folder (mapping mode) aborts with no filesystem
effect at all; but when the spreadsheet is unreadable or a required column is
missing, the destination root directory has already been created. -/
theorem C6_amended_config_errors (tcfg : TreeConfig) (mcfg : MappingConfig)
    (env env' : Env) (sheet : Option (List String × List MapRow))
    (fl fl' : List String) (items : List TreeItem)
    (hm : (process_from_excel_mapping mcfg env sheet fl).2.toOption = none)
    (ht : (recreate_from_original_tree tcfg env' fl' items).2.toOption = none) :
    ((process_from_excel_mapping mcfg env sheet fl).1 = [] ∨
      (process_from_excel_mapping mcfg env sheet fl).1 =
        [Effect.mkDir mcfg.destination_root]) ∧
    (env.isFile mcfg.spreadsheet_path = false ∨ env.isDir mcfg.flat_folder = false →
      (process_from_excel_mapping mcfg env sheet fl).1 = []) ∧
    (recreate_from_original_tree tcfg env' fl' items).1 = [] := by
  refine ⟨?_, ?_, ?_⟩
  · cases h1 : env.isFile mcfg.spreadsheet_path with
    | false => left; simp [process_from_excel_mapping, h1]
    | true =>
      cases h2 : env.isDir mcfg.flat_folder with
      | false => left; simp [process_from_excel_mapping, h1, h2]
      | true =>
        cases sheet with
        | none => right; simp [process_from_excel_mapping, h1, h2]
        | some cr =>
          obtain ⟨cols, rows⟩ := cr
          by_cases h3 : mcfg.directory_col ∈ cols
          · by_cases h4 : mcfg.name_col ∈ cols
            · exfalso
              have hok : (process_from_excel_mapping mcfg env
                  (some (cols, rows)) fl).2.toOption ≠ none := by
                simp [process_from_excel_mapping, h1, h2, h3, h4, Except.toOption]
              exact hok hm
            · right
              simp [process_from_excel_mapping, h1, h2, h3, h4]
          · right
            simp [process_from_excel_mapping, h1, h2, h3]
  · intro hpre
    rcases hpre with hpre | hpre
    · simp [process_from_excel_mapping, hpre]
    · cases h1 : env.isFile mcfg.spreadsheet_path with
      | false => simp [process_from_excel_mapping, h1]
      | true => simp [process_from_excel_mapping, h1, hpre]
  · cases h1 : env'.isDir tcfg.original_root with
    | false => simp [recreate_from_original_tree, h1]
    | true =>
      cases h2 : env'.isDir tcfg.flat_output_folder with
      | false => simp [recreate_from_original_tree, h1, h2]
      | true =>
        exfalso
        have hok : (recreate_from_original_tree tcfg env' fl' items).2.toOption ≠
            none := by
          simp [recreate_from_original_tree, h1, h2, Except.toOption]
        exact hok ht

/-- Witness for C6 amended: the counterexample configuration (missing mapping
column) and a tree run whose original root does not exist. -/
theorem C6_amended_config_errors_witness :
    ((process_from_excel_mapping
        ⟨"S", "Sheet1", "F", "D", "Directory", "Name", ".pdf", "", false, true⟩
        ⟨fun d => d == "F", fun x => x == "S"⟩
        (some (["Other"], [])) []).1 = [] ∨
      (process_from_excel_mapping
        ⟨"S", "Sheet1", "F", "D", "Directory", "Name", ".pdf", "", false, true⟩
        ⟨fun d => d == "F", fun x => x == "S"⟩
        (some (["Other"], [])) []).1 = [Effect.mkDir "D"]) ∧
    ((fun x => x == "S") "S" = false ∨ (fun d => d == "F") "F" = false →
      (process_from_excel_mapping
        ⟨"S", "Sheet1", "F", "D", "Directory", "Name", ".pdf", "", false, true⟩
        ⟨fun d => d == "F", fun x => x == "S"⟩
        (some (["Other"], [])) []).1 = []) ∧
    (recreate_from_original_tree ⟨"O", "F", "D", true, true, [], ".pdf", ""⟩
        ⟨fun _ => false, fun _ => false⟩ [] []).1 = [] :=
  C6_amended_config_errors ⟨"O", "F", "D", true, true, [], ".pdf", ""⟩
    ⟨"S", "Sheet1", "F", "D", "Directory", "Name", ".pdf", "", false, true⟩
    ⟨fun d => d == "F", fun x => x == "S"⟩ ⟨fun _ => false, fun _ => false⟩
    (some (["Other"], [])) [] [] [] (by decide) (by decide)

/-- C8: in the pre-OCR token step, when the computed destination exists the
numeric suffixes `_1`, `_2`, ... are probed in increasing order and the
move/copy goes to the first free one, so the step never targets an existing
path (never overwrites). -/
theorem C8_collision_avoidance (ex : String → Bool) (fuel : Nat)
    (mode_rename : Bool) (src_full dest d : String)
    (h : resolveCollision ex fuel dest = some d) :
    ex d = false ∧
    (ex dest = false → d = dest) ∧
    (ex dest = true →
      ∃ n, 1 ≤ n ∧ d = candidate (splitext dest).1 (splitext dest).2 n ∧
        ∀ m, 1 ≤ m → m < n →
          ex (candidate (splitext dest).1 (splitext dest).2 m) = true) ∧
    pre_ocr_materialize ex fuel mode_rename src_full dest =
      some (if mode_rename then Effect.movedFile src_full d
            else Effect.copiedFile src_full d) := by
  have hmat : pre_ocr_materialize ex fuel mode_rename src_full dest =
      some (if mode_rename then Effect.movedFile src_full d
            else Effect.copiedFile src_full d) := by
    rw [pre_ocr_materialize, h]
    rfl
  rw [resolveCollision] at h
  by_cases hex : ex dest = true
  · rw [if_pos hex] at h
    have h' : (probeFrom ex (splitext dest).1 (splitext dest).2 1 fuel).map
        (candidate (splitext dest).1 (splitext dest).2) = some d := h
    obtain ⟨n, hn, hcand⟩ := Option.map_eq_some'.mp h'
    obtain ⟨h1, h2, h3⟩ := probeFrom_spec ex _ _ fuel 1 n hn
    subst hcand
    refine ⟨h2, ?_, ?_, hmat⟩
    · intro hfalse
      rw [hex] at hfalse
      cases hfalse
    · intro _
      exact ⟨n, h1, rfl, fun m hm hmn => h3 m hm hmn⟩
  · rw [if_neg hex] at h
    have hd : d = dest := by
      have h'' : some dest = some d := h
      cases h''
      rfl
    subst hd
    have hexf : ex d = false := by simpa using hex
    refine ⟨hexf, fun _ => rfl, ?_, hmat⟩
    intro htrue
    rw [htrue] at hexf
    cases hexf

/-- Witness for C8: destination `f.txt` and `f_1.txt` exist, so the step
probes `_1`, `_2` and materialises at the free `f_2.txt`. -/
theorem C8_collision_avoidance_witness :
    (fun s => s == "f.txt" || s == "f_1.txt") "f_2.txt" = false ∧
    pre_ocr_materialize (fun s => s == "f.txt" || s == "f_1.txt") 3 true
        "src\\f.txt" "f.txt" =
      some (if true then Effect.movedFile "src\\f.txt" "f_2.txt"
            else Effect.copiedFile "src\\f.txt" "f_2.txt") :=
  have h := C8_collision_avoidance (fun s => s == "f.txt" || s == "f_1.txt") 3 true
    "src\\f.txt" "f.txt" "f_2.txt" (by decide)
  ⟨h.1, h.2.2.2⟩

end OCRPipeline
